import Mathlib

/-!
Verification of the libnih timer registry (src/nih/timer.c) and child-watch
registry (child.c) against their natural-language specification.

The C code is shallowly embedded: the global registry lists become explicit
`List` values threaded through the operations, `time_t` becomes `Int`,
function pointers become opaque `Nat` identifiers (0 standing for NULL),
and callback invocations are recorded in an explicit trace instead of being
executed.  `nih_assert` failures are modelled as an `aborted` outcome and
`nih_new` allocation failure as a `failed` outcome carrying the unchanged
registry.
-/

namespace LibNih

/-! ### Timer registry (timer.c) -/

/-- The three timer kinds of `NihTimerType`. -/
inductive NihTimerType
  | timeout
  | periodic
  | scheduled
deriving DecidableEq, Repr

/-- An `NihTimer` structure.  `timeout`, `period` and `schedule` mirror the
union arms (only the one selected by `type` is meaningful); `callback` and
`data` are the opaque callback pointer and user data. -/
structure NihTimer where
  type : NihTimerType
  timeout : Int := 0
  period : Int := 0
  schedule : Nat := 0
  due : Int
  callback : Nat
  data : Nat
deriving DecidableEq, Repr

/-- The timer built by `nih_timer_add_timeout` at current time `now`:
`due = now + timeout` (timer.c line 99). -/
def mkTimeout (now timeout : Int) (callback data : Nat) : NihTimer :=
  { type := NihTimerType.timeout, timeout := timeout, due := now + timeout,
    callback := callback, data := data }

/-- The timer built by `nih_timer_add_periodic` at current time `now`:
`due = now + period` (timer.c line 144). -/
def mkPeriodic (now period : Int) (callback data : Nat) : NihTimer :=
  { type := NihTimerType.periodic, period := period, due := now + period,
    callback := callback, data := data }

/-- The timer built by `nih_timer_add_scheduled`: the schedule is copied
verbatim and `due` is set to 0 (timer.c line 190, FIXME in the source). -/
def mkScheduled (callback data sched : Nat) : NihTimer :=
  { type := NihTimerType.scheduled, schedule := sched, due := 0,
    callback := callback, data := data }

/-- Outcome of a timer registration: `aborted` models an `nih_assert`
failure, `failed` models `nih_new` returning NULL (registry unchanged),
`ok` returns the new timer and the extended registry. -/
inductive TimerAddResult
  | aborted
  | failed (reg : List NihTimer)
  | ok (timer : NihTimer) (reg : List NihTimer)
deriving DecidableEq, Repr

/-- `nih_timer_add_timeout`: asserts `callback != NULL`, allocates, sets
`due = now + timeout` and appends the timer to the registry list
(`nih_list_add` inserts before the head sentinel, i.e. at the tail). -/
def nih_timer_add_timeout (allocOk : Bool) (callback data : Nat)
    (now timeout : Int) (timers : List NihTimer) : TimerAddResult :=
  if callback = 0 then TimerAddResult.aborted
  else if allocOk then
    let timer := mkTimeout now timeout callback data
    TimerAddResult.ok timer (timers ++ [timer])
  else TimerAddResult.failed timers

/-- `nih_timer_add_periodic`: asserts `callback != NULL` and `period > 0`,
allocates, sets `due = now + period` and appends the timer. -/
def nih_timer_add_periodic (allocOk : Bool) (callback data : Nat)
    (now period : Int) (timers : List NihTimer) : TimerAddResult :=
  if callback = 0 then TimerAddResult.aborted
  else if period ≤ 0 then TimerAddResult.aborted
  else if allocOk then
    let timer := mkPeriodic now period callback data
    TimerAddResult.ok timer (timers ++ [timer])
  else TimerAddResult.failed timers

/-- `nih_timer_add_scheduled`: asserts `callback != NULL` and
`schedule != NULL` (the argument is a pointer, modelled as `Option`),
allocates, copies the schedule, leaves `due = 0` and appends the timer. -/
def nih_timer_add_scheduled (allocOk : Bool) (callback data : Nat)
    (schedule : Option Nat) (timers : List NihTimer) : TimerAddResult :=
  if callback = 0 then TimerAddResult.aborted
  else
    match schedule with
    | none => TimerAddResult.aborted
    | some s =>
      if allocOk then
        let timer := mkScheduled callback data s
        TimerAddResult.ok timer (timers ++ [timer])
      else TimerAddResult.failed timers

/-- The accumulator loop of `nih_timer_next_due`: keep the current best and
replace it only when a strictly smaller `due` is found. -/
def nextDueAux (next : Option NihTimer) : List NihTimer → Option NihTimer
  | [] => next
  | t :: ts =>
    nextDueAux
      (match next with
        | none => some t
        | some n => if t.due < n.due then some t else some n) ts

/-- `nih_timer_next_due`: linear scan of the registry for the timer with the
smallest `due`, NULL (`none`) on an empty registry. -/
def nih_timer_next_due (timers : List NihTimer) : Option NihTimer :=
  nextDueAux none timers

/-- Structural reformulation of the `nih_timer_next_due` scan, used in the
proofs: the first timer attaining the minimum `due` (the head wins ties). -/
def nextDueRec : List NihTimer → Option NihTimer
  | [] => none
  | t :: ts =>
    match nextDueRec ts with
    | none => some t
    | some m => if t.due ≤ m.due then some t else some m

/-- The effect of one `nih_timer_poll` loop iteration on a single timer:
`none` means the timer is removed from the list (`nih_list_free`), `some`
gives the (possibly rescheduled) timer that stays in the list. -/
def stepTimer (now : Int) (t : NihTimer) : Option NihTimer :=
  if now < t.due then some t
  else
    match t.type with
    | NihTimerType.timeout => none
    | NihTimerType.periodic => some { t with due := now + t.period }
    | NihTimerType.scheduled => some { t with due := 0 }

/-- `nih_timer_poll` at current time `now`: walk the registry; a timer with
`due > now` is skipped, otherwise its callback fires and the timer is freed
(Timeout), rescheduled to `now + period` (Periodic) or has `due` reset to 0
(Scheduled).  Returns the new registry and, in list order, the timers whose
callbacks were invoked (with their pre-update state). -/
def nih_timer_poll (now : Int) : List NihTimer → List NihTimer × List NihTimer
  | [] => ([], [])
  | t :: ts =>
    let rest := nih_timer_poll now ts
    if now < t.due then (t :: rest.1, rest.2)
    else
      match t.type with
      | NihTimerType.timeout => (rest.1, t :: rest.2)
      | NihTimerType.periodic =>
        ({ t with due := now + t.period } :: rest.1, t :: rest.2)
      | NihTimerType.scheduled =>
        ({ t with due := 0 } :: rest.1, t :: rest.2)

/-- A sequence of `nih_timer_poll` calls at the given times, in order. -/
def pollSeq (times : List Int) (timers : List NihTimer) : List NihTimer :=
  times.foldl (fun acc now => (nih_timer_poll now acc).1) timers

/-! ### Child watch registry (child.c) -/

/-- The seven child event kinds of `NihChildEvents`. -/
inductive NihChildEvent
  | exited
  | killed
  | dumped
  | stopped
  | continued
  | trapped
  | ptrace
deriving DecidableEq, Repr

/-- Modelled from the spec (the `NihChildEvents` enum lives in child.h,
which is not part of the sources here): `events` is "a bitmask of
subscribed transition kinds", so each event kind occupies its own bit. -/
def eventBit : NihChildEvent → Nat
  | NihChildEvent.exited => 1
  | NihChildEvent.killed => 2
  | NihChildEvent.dumped => 4
  | NihChildEvent.stopped => 8
  | NihChildEvent.continued => 16
  | NihChildEvent.trapped => 32
  | NihChildEvent.ptrace => 64

/-- An `NihChildWatch` structure: watched pid (or -1 for the wildcard),
subscribed event mask, handler pointer and user data. -/
structure NihChildWatch where
  pid : Int
  events : Nat
  handler : Nat
  data : Nat
deriving DecidableEq, Repr

/-- Outcome of `nih_child_add_watch`, analogous to `TimerAddResult`. -/
inductive WatchAddResult
  | aborted
  | failed (reg : List NihChildWatch)
  | ok (watch : NihChildWatch) (reg : List NihChildWatch)
deriving DecidableEq, Repr

/-- `nih_child_add_watch`: asserts `pid != 0` and `handler != NULL`,
allocates, fills the watch and appends it to the registry list. -/
def nih_child_add_watch (allocOk : Bool) (pid : Int)
    (events handler data : Nat) (watches : List NihChildWatch) :
    WatchAddResult :=
  if pid = 0 then WatchAddResult.aborted
  else if handler = 0 then WatchAddResult.aborted
  else if allocOk then
    let w : NihChildWatch := ⟨pid, events, handler, data⟩
    WatchAddResult.ok w (watches ++ [w])
  else WatchAddResult.failed watches

/-- The `si_code` values reported by `waitid` for a child transition. -/
inductive CldCode
  | exited
  | killed
  | dumped
  | trapped
  | stopped
  | continued
deriving DecidableEq, Repr

/-- One pending child-state transition as reported by the kernel:
`si_pid`, `si_code` and `si_status`. -/
structure ChildTransition where
  pid : Int
  code : CldCode
  status : Nat
deriving DecidableEq, Repr

/-- The trap signal number on Linux. -/
def SIGTRAP : Nat := 5

/-- The `switch (info.si_code)` of `nih_child_poll`: decode a transition
into the event kind, the status passed to handlers, and the `free_watch`
flag.  For `CLD_TRAPPED`, `si_status & 0x7f == SIGTRAP && si_status & ~0x7f`
selects a ptrace event whose status is `si_status >> 8`; since `si_status`
is non-negative, `si_status & ~0x7f != 0` is `si_status >>> 7 != 0`. -/
def decode (code : CldCode) (status : Nat) : NihChildEvent × Nat × Bool :=
  match code with
  | CldCode.exited => (NihChildEvent.exited, status, true)
  | CldCode.killed => (NihChildEvent.killed, status, true)
  | CldCode.dumped => (NihChildEvent.dumped, status, true)
  | CldCode.trapped =>
    if status &&& 0x7f = SIGTRAP ∧ status >>> 7 ≠ 0 then
      (NihChildEvent.ptrace, status >>> 8, false)
    else
      (NihChildEvent.trapped, status, false)
  | CldCode.stopped => (NihChildEvent.stopped, status, false)
  | CldCode.continued => (NihChildEvent.continued, status, false)

/-- Events after which `nih_child_poll` leaves `free_watch` at TRUE: the
terminal transitions Exited, Killed and Dumped. -/
def terminalEvent : NihChildEvent → Bool
  | NihChildEvent.exited => true
  | NihChildEvent.killed => true
  | NihChildEvent.dumped => true
  | _ => false

/-- One observable step of `nih_child_poll`: the non-consuming `waitid`
peek, a handler invocation `watch->handler (watch->data, pid, event,
status)` (the watch itself is recorded so the receiver is identifiable),
and the consuming `waitid (P_PID, pid, ...)` reap. -/
inductive PollAction
  | peek (tr : ChildTransition)
  | invoke (watch : NihChildWatch) (pid : Int) (event : NihChildEvent)
      (status : Nat)
  | reap (pid : Int)
deriving DecidableEq, Repr

/-- Whether a watch's handler is invoked for a reported transition:
the two `continue` guards of the dispatch loop, i.e. the pid matches
exactly or the watch is the wildcard, and the event mask includes the
reported event kind. -/
def watchMatches (pid : Int) (event : NihChildEvent)
    (w : NihChildWatch) : Bool :=
  decide ((w.pid = pid ∨ w.pid = -1) ∧ w.events &&& eventBit event ≠ 0)

/-- The `NIH_LIST_FOREACH_SAFE` dispatch loop of `nih_child_poll` for one
decoded transition: skip watches whose pid does not match and is not the
wildcard, skip watches whose event mask misses the event, invoke the rest,
and free an invoked watch when `free_watch` is set and its pid is not the
wildcard.  Returns the surviving watch list and the invocation trace. -/
def dispatch (pid : Int) (event : NihChildEvent) (status : Nat)
    (freeWatch : Bool) :
    List NihChildWatch → List NihChildWatch × List PollAction
  | [] => ([], [])
  | w :: ws =>
    let rest := dispatch pid event status freeWatch ws
    if w.pid ≠ pid ∧ w.pid ≠ -1 then (w :: rest.1, rest.2)
    else if w.events &&& eventBit event = 0 then (w :: rest.1, rest.2)
    else if freeWatch = true ∧ w.pid ≠ -1 then
      (rest.1, PollAction.invoke w pid event status :: rest.2)
    else
      (w :: rest.1, PollAction.invoke w pid event status :: rest.2)

/-- `nih_child_poll` over the queue of pending kernel transitions: while a
non-consuming `waitid` peek succeeds with a non-zero pid, decode the
transition, dispatch it over the watch list, then perform the consuming
`waitid` reap for that pid and continue with the next pending transition.
Returns the final watch list and the trace of actions. -/
def nih_child_poll :
    List ChildTransition → List NihChildWatch →
    List NihChildWatch × List PollAction
  | [], ws => (ws, [])
  | tr :: pending, ws =>
    if tr.pid = 0 then (ws, [])
    else
      let d := decode tr.code tr.status
      let step := dispatch tr.pid d.1 d.2.1 d.2.2 ws
      let rest := nih_child_poll pending step.1
      (rest.1,
        PollAction.peek tr :: step.2 ++ PollAction.reap tr.pid :: rest.2)

/-- Whether a trace action is a handler invocation. -/
def isInvoke : PollAction → Bool
  | PollAction.invoke _ _ _ _ => true
  | _ => false

/-- Whether a trace action is a consuming reap. -/
def isReap : PollAction → Bool
  | PollAction.reap _ => true
  | _ => false

/-- Occurrences of a given watch in a watch list (the list may in principle
hold equal-valued entries; distinct C structures with equal fields are
identified in this model). -/
def countW (w : NihChildWatch) : List NihChildWatch → Nat
  | [] => 0
  | x :: xs => (if x = w then 1 else 0) + countW w xs

/-- Number of handler invocations of a given watch for a terminal event in
a trace. -/
def countTerminalInvokes (w : NihChildWatch) : List PollAction → Nat
  | [] => 0
  | PollAction.invoke w2 _ e _ :: rest =>
    (if w2 = w ∧ terminalEvent e = true then 1 else 0) +
      countTerminalInvokes w rest
  | PollAction.peek _ :: rest => countTerminalInvokes w rest
  | PollAction.reap _ :: rest => countTerminalInvokes w rest

/-- Modelled from the claim wording of C4 (for comparison with `decode`):
"the raw status's low byte equals the trap signal (SIGTRAP) and extra bits
are set", the extra bits being the raw status shifted right by 8. -/
def decodeTrappedClaim (status : Nat) : NihChildEvent × Nat :=
  if status &&& 0xff = SIGTRAP ∧ status >>> 8 ≠ 0 then
    (NihChildEvent.ptrace, status >>> 8)
  else
    (NihChildEvent.trapped, status)

/-! ### Helper lemmas: timer registry -/

/-- The registry produced by `nih_timer_poll` is the pointwise
`stepTimer` image of the old one. -/
theorem nih_timer_poll_fst (now : Int) (ts : List NihTimer) :
    (nih_timer_poll now ts).1 = ts.filterMap (stepTimer now) := by
  induction ts with
  | nil => rfl
  | cons t ts ih =>
    by_cases h : now < t.due
    · simp [nih_timer_poll, stepTimer, h, ih]
    · cases htype : t.type <;>
        simp [nih_timer_poll, stepTimer, h, htype, ih]

/-- The timers fired by `nih_timer_poll` are exactly those with
`due ≤ now`, in list order. -/
theorem nih_timer_poll_snd (now : Int) (ts : List NihTimer) :
    (nih_timer_poll now ts).2 = ts.filter (fun t => decide (t.due ≤ now)) := by
  induction ts with
  | nil => rfl
  | cons t ts ih =>
    by_cases h : now < t.due
    · have h2 : ¬ t.due ≤ now := by omega
      simp [nih_timer_poll, h, h2, ih]
    · have h2 : t.due ≤ now := by omega
      cases htype : t.type <;>
        simp [nih_timer_poll, h, h2, htype, ih]

/-- Unfolding of the `nih_timer_next_due` accumulator against the
structural reformulation `nextDueRec`. -/
theorem nextDueAux_some (n : NihTimer) (ts : List NihTimer) :
    nextDueAux (some n) ts =
      some (match nextDueRec ts with
        | none => n
        | some m => if m.due < n.due then m else n) := by
  induction ts generalizing n with
  | nil => rfl
  | cons t ts ih =>
    show nextDueAux (if t.due < n.due then some t else some n) ts = _
    rw [apply_ite (fun o => nextDueAux o ts), ih, ih]
    simp only [nextDueRec]
    cases hrec : nextDueRec ts with
    | none =>
      by_cases h1 : t.due < n.due <;> try simp [h1]
    | some m =>
      by_cases h1 : t.due < n.due <;> by_cases h2 : t.due ≤ m.due <;>
        by_cases h3 : m.due < n.due <;> by_cases h4 : m.due < t.due <;>
          try simp [h1, h2, h3, h4]
      all_goals (exfalso; omega)

/-- `nih_timer_next_due` agrees with the structural reformulation. -/
theorem nih_timer_next_due_eq (ts : List NihTimer) :
    nih_timer_next_due ts = nextDueRec ts := by
  cases ts with
  | nil => rfl
  | cons t ts =>
    show nextDueAux (some t) ts = nextDueRec (t :: ts)
    rw [nextDueAux_some]
    simp only [nextDueRec]
    cases hrec : nextDueRec ts with
    | none => rfl
    | some m =>
      by_cases h2 : t.due ≤ m.due <;> by_cases h3 : m.due < t.due <;>
        try simp [h2, h3]
      all_goals (exfalso; omega)

/-- `nextDueRec` returns `none` exactly on the empty registry. -/
theorem nextDueRec_none_iff (ts : List NihTimer) :
    nextDueRec ts = none ↔ ts = [] := by
  cases ts with
  | nil => simp [nextDueRec]
  | cons t ts =>
    have hne : ∀ o : Option NihTimer,
        (match o with
          | none => some t
          | some m => if t.due ≤ m.due then some t else some m) ≠ none := by
      intro o
      cases o with
      | none => simp
      | some m => by_cases h : t.due ≤ m.due <;> simp [h]
    simp only [nextDueRec]
    exact ⟨fun h => absurd h (hne _), fun h => List.noConfusion h⟩

/-- `nextDueRec` of a non-empty registry splits the registry around the
first entry attaining the minimum `due`: no entry has a smaller `due` and
every entry strictly before the winner has a strictly larger `due`. -/
theorem nextDueRec_first_min (ts : List NihTimer) (h : ts ≠ []) :
    ∃ pre m post, ts = pre ++ m :: post ∧
      nextDueRec ts = some m ∧
      (∀ x ∈ ts, m.due ≤ x.due) ∧
      (∀ x ∈ pre, m.due < x.due) := by
  induction ts with
  | nil => exact absurd rfl h
  | cons t ts ih =>
    cases hrec : nextDueRec ts with
    | none =>
      have hnil : ts = [] := (nextDueRec_none_iff ts).mp hrec
      subst hnil
      refine ⟨[], t, [], rfl, by simp [nextDueRec], ?_, by simp⟩
      intro x hx
      simp at hx
      simp [hx]
    | some m =>
      have hne : ts ≠ [] := by
        intro hnil
        subst hnil
        simp [nextDueRec] at hrec
      obtain ⟨pre, m2, post, hsplit, hget, hmin, hfirst⟩ := ih hne
      rw [hrec] at hget
      have hm : m2 = m := by
        injection hget with hget
        exact hget.symm
      subst hm
      by_cases hle : t.due ≤ m2.due
      · refine ⟨[], t, ts, rfl, ?_, ?_, by simp⟩
        · simp [nextDueRec, hrec, hle]
        · intro x hx
          rcases List.mem_cons.mp hx with hx | hx
          · simp [hx]
          · have := hmin x hx
            omega
      · refine ⟨t :: pre, m2, post, by simp [hsplit], ?_, ?_, ?_⟩
        · simp [nextDueRec, hrec, hle]
        · intro x hx
          rcases List.mem_cons.mp hx with hx | hx
          · subst hx
            omega
          · exact hmin x hx
        · intro x hx
          rcases List.mem_cons.mp hx with hx | hx
          · subst hx
            omega
          · exact hfirst x hx

/-! ### Helper lemmas: child watch registry -/

/-- The filter predicate deciding whether a watch survives one dispatch:
it is dropped exactly when it matched, `free_watch` was set and it is
pid-specific. -/
def keepPred (pid : Int) (e : NihChildEvent) (fw : Bool)
    (w : NihChildWatch) : Bool :=
  ! (watchMatches pid e w && fw && decide (w.pid ≠ -1))

/-- A watch whose pid matches neither exactly nor as the wildcard does not
match. -/
theorem watchMatches_false_of_pid (pid : Int) (e : NihChildEvent)
    (w : NihChildWatch) (h : w.pid ≠ pid ∧ w.pid ≠ -1) :
    watchMatches pid e w = false := by
  simp only [watchMatches, decide_eq_false_iff_not]
  intro hc
  rcases hc.1 with hc1 | hc1
  · exact h.1 hc1
  · exact h.2 hc1

/-- A watch whose event mask misses the event does not match. -/
theorem watchMatches_false_of_mask (pid : Int) (e : NihChildEvent)
    (w : NihChildWatch) (h : w.events &&& eventBit e = 0) :
    watchMatches pid e w = false := by
  simp only [watchMatches, decide_eq_false_iff_not]
  intro hc
  exact hc.2 h

/-- The watches surviving one dispatch are exactly those that were not
invoked for a terminal transition while being pid-specific. -/
theorem dispatch_fst (pid : Int) (e : NihChildEvent) (st : Nat) (fw : Bool)
    (ws : List NihChildWatch) :
    (dispatch pid e st fw ws).1 = ws.filter (keepPred pid e fw) := by
  induction ws with
  | nil => rfl
  | cons w ws ih =>
    simp only [dispatch, List.filter_cons]
    by_cases h1 : w.pid ≠ pid ∧ w.pid ≠ -1
    · have hm := watchMatches_false_of_pid pid e w h1
      have hpred : keepPred pid e fw w = true := by
        simp [keepPred, hm]
      rw [if_pos h1, if_pos hpred]
      exact congrArg (fun l => w :: l) ih
    · by_cases h2 : w.events &&& eventBit e = 0
      · have hm := watchMatches_false_of_mask pid e w h2
        have hpred : keepPred pid e fw w = true := by
          simp [keepPred, hm]
        rw [if_neg h1, if_pos h2, if_pos hpred]
        exact congrArg (fun l => w :: l) ih
      · have hm : watchMatches pid e w = true := by
          simp only [watchMatches, decide_eq_true_eq]
          exact ⟨by tauto, h2⟩
        by_cases h3 : fw = true ∧ w.pid ≠ -1
        · have hpred : keepPred pid e fw w = false := by
            simp [keepPred, hm, h3.1, h3.2]
          rw [if_neg h1, if_neg h2, if_pos h3, if_neg (by simp [hpred])]
          exact ih
        · have hpred : keepPred pid e fw w = true := by
            rcases not_and_or.mp h3 with h4 | h4
            · have hfw : fw = false := by
                cases fw
                · rfl
                · exact absurd rfl h4
              simp [keepPred, hfw]
            · have hpid : w.pid = -1 := not_not.mp h4
              simp [keepPred, hpid]
          rw [if_neg h1, if_neg h2, if_neg h3, if_pos hpred]
          exact congrArg (fun l => w :: l) ih

/-- The handler invocations of one dispatch are exactly one per matching
watch, in list order, all carrying the identical transition tuple. -/
theorem dispatch_snd (pid : Int) (e : NihChildEvent) (st : Nat) (fw : Bool)
    (ws : List NihChildWatch) :
    (dispatch pid e st fw ws).2 =
      (ws.filter (watchMatches pid e)).map
        (fun w => PollAction.invoke w pid e st) := by
  induction ws with
  | nil => rfl
  | cons w ws ih =>
    simp only [dispatch, List.filter_cons]
    by_cases h1 : w.pid ≠ pid ∧ w.pid ≠ -1
    · have hm := watchMatches_false_of_pid pid e w h1
      rw [if_pos h1, if_neg (by simp [hm])]
      exact ih
    · by_cases h2 : w.events &&& eventBit e = 0
      · have hm := watchMatches_false_of_mask pid e w h2
        rw [if_neg h1, if_pos h2, if_neg (by simp [hm])]
        exact ih
      · have hm : watchMatches pid e w = true := by
          simp only [watchMatches, decide_eq_true_eq]
          exact ⟨by tauto, h2⟩
        by_cases h3 : fw = true ∧ w.pid ≠ -1
        · rw [if_neg h1, if_neg h2, if_pos h3, if_pos hm]
          exact congrArg (fun l => PollAction.invoke w pid e st :: l) ih
        · rw [if_neg h1, if_neg h2, if_neg h3, if_pos hm]
          exact congrArg (fun l => PollAction.invoke w pid e st :: l) ih

/-- The `free_watch` flag computed by the decode switch is set exactly for
the terminal events. -/
theorem decode_fw (c : CldCode) (s : Nat) :
    (decode c s).2.2 = terminalEvent (decode c s).1 := by
  cases c with
  | trapped =>
    by_cases h : s &&& 0x7f = SIGTRAP ∧ s >>> 7 ≠ 0 <;>
      simp [decode, terminalEvent, h]
  | exited => rfl
  | killed => rfl
  | dumped => rfl
  | stopped => rfl
  | continued => rfl

/-- `countTerminalInvokes` distributes over trace concatenation. -/
theorem countTI_append (w : NihChildWatch) (a b : List PollAction) :
    countTerminalInvokes w (a ++ b) =
      countTerminalInvokes w a + countTerminalInvokes w b := by
  induction a with
  | nil => simp [countTerminalInvokes]
  | cons x a ih =>
    cases x <;> simp [countTerminalInvokes, ih, Nat.add_assoc]

/-- Every action recorded by the dispatch loop is a handler invocation. -/
theorem dispatch_acts_invoke (pid : Int) (e : NihChildEvent) (st : Nat)
    (fw : Bool) (ws : List NihChildWatch) :
    ∀ a ∈ (dispatch pid e st fw ws).2, isInvoke a = true := by
  intro a ha
  rw [dispatch_snd] at ha
  simp only [List.mem_map] at ha
  obtain ⟨x, hx, rfl⟩ := ha
  rfl

/-- Terminal invocations of one watch in a block of invocations built from
a watch list for a terminal event: the watch's multiplicity. -/
theorem countTI_map_invoke_true (w : NihChildWatch) (pid : Int)
    (e : NihChildEvent) (st : Nat) (l : List NihChildWatch)
    (h : terminalEvent e = true) :
    countTerminalInvokes w (l.map (fun x => PollAction.invoke x pid e st)) =
      countW w l := by
  induction l with
  | nil => rfl
  | cons x l ih =>
    by_cases hx : x = w <;>
      simp [countTerminalInvokes, countW, ih, hx, h]

/-- A non-terminal event contributes no terminal invocations. -/
theorem countTI_map_invoke_false (w : NihChildWatch) (pid : Int)
    (e : NihChildEvent) (st : Nat) (l : List NihChildWatch)
    (h : terminalEvent e = false) :
    countTerminalInvokes w (l.map (fun x => PollAction.invoke x pid e st)) =
      0 := by
  induction l with
  | nil => rfl
  | cons x l ih =>
    simp [countTerminalInvokes, ih, h]

/-- Filtering cannot increase a watch's multiplicity. -/
theorem countW_filter_le (w : NihChildWatch) (p : NihChildWatch → Bool)
    (l : List NihChildWatch) : countW w (l.filter p) ≤ countW w l := by
  induction l with
  | nil => simp [countW]
  | cons x l ih =>
    by_cases hp : p x = true
    · simp only [List.filter_cons, if_pos hp, countW]
      omega
    · simp only [List.filter_cons, if_neg hp, countW]
      omega

/-- A watch rejected by the filter predicate has multiplicity zero in the
filtered list. -/
theorem countW_filter_eq_zero (w : NihChildWatch) (p : NihChildWatch → Bool)
    (l : List NihChildWatch) (h : p w = false) :
    countW w (l.filter p) = 0 := by
  induction l with
  | nil => simp [countW]
  | cons x l ih =>
    by_cases hx : x = w
    · subst hx
      simp [List.filter_cons, h, ih]
    · by_cases hp : p x = true <;>
        simp [List.filter_cons, countW, hp, hx, ih]

/-- One dispatch of a transition: the terminal invocations a pid-specific
watch receives plus its remaining multiplicity never exceed its original
multiplicity (an invoked copy is freed). -/
theorem countTI_dispatch (w : NihChildWatch) (pid : Int) (e : NihChildEvent)
    (st : Nat) (hw : w.pid ≠ -1) (ws : List NihChildWatch) :
    countTerminalInvokes w (dispatch pid e st (terminalEvent e) ws).2 +
      countW w (dispatch pid e st (terminalEvent e) ws).1 ≤ countW w ws := by
  rw [dispatch_snd, dispatch_fst]
  cases hte : terminalEvent e with
  | false =>
    rw [countTI_map_invoke_false w pid e st _ hte]
    have hfilter : ws.filter (keepPred pid e false) = ws := by
      rw [List.filter_eq_self]
      intro a _
      simp [keepPred]
    rw [hfilter]
    omega
  | true =>
    rw [countTI_map_invoke_true w pid e st _ hte]
    by_cases hm : watchMatches pid e w = true
    · have h0 : countW w (ws.filter (keepPred pid e true)) = 0 := by
        apply countW_filter_eq_zero
        simp [keepPred, hm, hw]
      have h1 := countW_filter_le w (watchMatches pid e) ws
      rw [h0]
      omega
    · have h0 : countW w (ws.filter (watchMatches pid e)) = 0 :=
        countW_filter_eq_zero w _ ws (by simpa using hm)
      have h1 := countW_filter_le w (keepPred pid e true) ws
      rw [h0]
      omega

/-- Across a whole `nih_child_poll`, a pid-specific watch receives at most
as many terminal notifications as it has entries in the registry. -/
theorem countTI_poll (w : NihChildWatch) (hw : w.pid ≠ -1)
    (pending : List ChildTransition) (ws : List NihChildWatch) :
    countTerminalInvokes w (nih_child_poll pending ws).2 ≤ countW w ws := by
  induction pending generalizing ws with
  | nil => simp [nih_child_poll, countTerminalInvokes]
  | cons tr pending ih =>
    by_cases hp : tr.pid = 0
    · simp [nih_child_poll, hp, countTerminalInvokes]
    · have hfw := decode_fw tr.code tr.status
      simp only [nih_child_poll, if_neg hp]
      rw [hfw]
      have h1 := countTI_dispatch w tr.pid (decode tr.code tr.status).1
        (decode tr.code tr.status).2.1 hw ws
      have h2 := ih (dispatch tr.pid (decode tr.code tr.status).1
        (decode tr.code tr.status).2.1
        (terminalEvent (decode tr.code tr.status).1) ws).1
      rw [show countTerminalInvokes w
          (PollAction.peek tr ::
            (dispatch tr.pid (decode tr.code tr.status).1
              (decode tr.code tr.status).2.1
              (terminalEvent (decode tr.code tr.status).1) ws).2 ++
            PollAction.reap tr.pid ::
            (nih_child_poll pending
              (dispatch tr.pid (decode tr.code tr.status).1
                (decode tr.code tr.status).2.1
                (terminalEvent (decode tr.code tr.status).1) ws).1).2) =
          countTerminalInvokes w
            (dispatch tr.pid (decode tr.code tr.status).1
              (decode tr.code tr.status).2.1
              (terminalEvent (decode tr.code tr.status).1) ws).2 +
          countTerminalInvokes w
            (nih_child_poll pending
              (dispatch tr.pid (decode tr.code tr.status).1
                (decode tr.code tr.status).2.1
                (terminalEvent (decode tr.code tr.status).1) ws).1).2 from by
        simp only [countTerminalInvokes, List.append_eq, countTI_append]]
      omega

/-- A singleton registry is unchanged by any sequence of polls that all
happen strictly before the timer's due time. -/
theorem pollSeq_singleton_keep (tm : NihTimer) (pre : List Int)
    (hpre : ∀ p ∈ pre, p < tm.due) : pollSeq pre [tm] = [tm] := by
  induction pre with
  | nil => rfl
  | cons p pre ih =>
    have hp : p < tm.due := hpre p (List.mem_cons_self p pre)
    have hstep : (nih_timer_poll p [tm]).1 = [tm] := by
      simp [nih_timer_poll, hp]
    simp only [pollSeq, List.foldl_cons]
    rw [hstep]
    exact ih (fun q hq => hpre q (List.mem_cons_of_mem p hq))

/-! ### Claim theorems -/

/-- Claim C1, behaviour of the code at the failing input: contrary to the
spec, a Scheduled timer registered by `nih_timer_add_scheduled` carries
`due = 0`, and `nih_timer_poll` fires every timer with `due ≤ now` — so at
every poll at a non-negative clock value the Scheduled timer's callback is
invoked, and its `due` is reset to 0 so that it fires again on the next
poll.  The spec's statement that such a timer never fires is refuted for
every `now ≥ 0`. -/
theorem scheduled_timer_fires_every_poll (now : Int) (cb data sched : Nat)
    (h : 0 ≤ now) :
    (nih_timer_poll now [mkScheduled cb data sched]).2 =
      [mkScheduled cb data sched] ∧
    (nih_timer_poll now [mkScheduled cb data sched]).1 =
      [mkScheduled cb data sched] := by
  have h2 : ¬ now < (0 : Int) := by omega
  constructor
  · simp [nih_timer_poll, mkScheduled, h2]
  · simp [nih_timer_poll, mkScheduled, h2]

/-- Witness for `scheduled_timer_fires_every_poll` at `now = 5`. -/
theorem scheduled_timer_fires_every_poll_witness :
    (nih_timer_poll 5 [mkScheduled 1 0 2]).2 = [mkScheduled 1 0 2] ∧
    (nih_timer_poll 5 [mkScheduled 1 0 2]).1 = [mkScheduled 1 0 2] :=
  scheduled_timer_fires_every_poll 5 1 0 2 (by decide)

/-- Claim C2 counterexample: a Periodic timer with period 1 due at time 1,
polled at time 10, fires and has its `due` set to `now + period = 11` — an
increase of 10, not the period 1.  The claim that every fire increases
`due` by exactly the period is false. -/
theorem periodic_due_increase_cex :
    (nih_timer_poll 10 [mkPeriodic 0 1 1 0]).2 = [mkPeriodic 0 1 1 0] ∧
    (nih_timer_poll 10 [mkPeriodic 0 1 1 0]).1 =
      [{ mkPeriodic 0 1 1 0 with due := 11 }] ∧
    ({ mkPeriodic 0 1 1 0 with due := 11 }).due -
        (mkPeriodic 0 1 1 0).due ≠ (mkPeriodic 0 1 1 0).period := by
  decide

/-- Claim C2 as amended: a fire of a Periodic timer with period `p > 0`
sets its `due` to `now + p`, which strictly increases `due` and increases
it by at least `p` — by exactly `p` precisely when the poll happens at the
due time; and `nih_timer_poll` never removes a Periodic timer (a
rescheduled copy always survives in the registry). -/
theorem periodic_timer_reschedule (now : Int) (ts : List NihTimer)
    (t : NihTimer) (hmem : t ∈ ts) (htype : t.type = NihTimerType.periodic)
    (hp : 0 < t.period) :
    ∃ t2, stepTimer now t = some t2 ∧ t2 ∈ (nih_timer_poll now ts).1 ∧
      t2.type = NihTimerType.periodic ∧ t2.period = t.period ∧
      t2.callback = t.callback ∧
      (t.due ≤ now →
        t2.due = now + t.period ∧ t.due < t2.due ∧
        t.due + t.period ≤ t2.due ∧
        (now = t.due → t2.due = t.due + t.period) ∧
        t ∈ (nih_timer_poll now ts).2) ∧
      (now < t.due → t2 = t) := by
  by_cases hfire : now < t.due
  · refine ⟨t, ?_, ?_, htype, rfl, rfl, ?_, fun _ => rfl⟩
    · simp [stepTimer, hfire]
    · rw [nih_timer_poll_fst]
      exact List.mem_filterMap.mpr ⟨t, hmem, by simp [stepTimer, hfire]⟩
    · intro hdue
      omega
  · refine ⟨{ t with due := now + t.period }, ?_, ?_, ?_, rfl, rfl, ?_, ?_⟩
    · simp [stepTimer, hfire, htype]
    · rw [nih_timer_poll_fst]
      exact List.mem_filterMap.mpr ⟨t, hmem, by simp [stepTimer, hfire, htype]⟩
    · simp [htype]
    · intro hdue
      refine ⟨rfl, by simp; omega, by simp; omega, fun hnow => by simp [hnow],
        ?_⟩
      rw [nih_timer_poll_snd]
      exact List.mem_filter.mpr ⟨hmem, by simp [hdue]⟩
    · intro hlt
      exact absurd hlt hfire

/-- Witness for `periodic_timer_reschedule` at the counterexample input. -/
theorem periodic_timer_reschedule_witness :
    ∃ t2, stepTimer 10 (mkPeriodic 0 1 1 0) = some t2 ∧
      t2 ∈ (nih_timer_poll 10 [mkPeriodic 0 1 1 0]).1 ∧
      t2.type = NihTimerType.periodic ∧
      t2.period = (mkPeriodic 0 1 1 0).period ∧
      t2.callback = (mkPeriodic 0 1 1 0).callback ∧
      ((mkPeriodic 0 1 1 0).due ≤ 10 →
        t2.due = 10 + (mkPeriodic 0 1 1 0).period ∧
        (mkPeriodic 0 1 1 0).due < t2.due ∧
        (mkPeriodic 0 1 1 0).due + (mkPeriodic 0 1 1 0).period ≤ t2.due ∧
        (10 = (mkPeriodic 0 1 1 0).due →
          t2.due = (mkPeriodic 0 1 1 0).due + (mkPeriodic 0 1 1 0).period) ∧
        mkPeriodic 0 1 1 0 ∈ (nih_timer_poll 10 [mkPeriodic 0 1 1 0]).2) ∧
      (10 < (mkPeriodic 0 1 1 0).due → t2 = mkPeriodic 0 1 1 0) :=
  periodic_timer_reschedule 10 [mkPeriodic 0 1 1 0] (mkPeriodic 0 1 1 0)
    (by simp) rfl (by decide)

/-- Claim C6: `nih_timer_next_due` returns none exactly on the empty
registry; a non-empty registry splits as `pre ++ winner :: post` where the
winner is returned, no entry has a smaller `due`, and every entry before
the winner has a strictly larger `due` (first encounter wins ties).  Since
the statement holds for every registry value, it holds after any add,
remove or fire. -/
theorem next_due_minimum (ts : List NihTimer) :
    (nih_timer_next_due ts = none ↔ ts = []) ∧
    (ts ≠ [] → ∃ pre m post, ts = pre ++ m :: post ∧
      nih_timer_next_due ts = some m ∧
      (∀ x ∈ ts, m.due ≤ x.due) ∧
      (∀ x ∈ pre, m.due < x.due)) := by
  constructor
  · rw [nih_timer_next_due_eq]
    exact nextDueRec_none_iff ts
  · intro h
    obtain ⟨pre, m, post, h1, h2, h3, h4⟩ := nextDueRec_first_min ts h
    refine ⟨pre, m, post, h1, ?_, h3, h4⟩
    rw [nih_timer_next_due_eq]
    exact h2

/-- Witness for `next_due_minimum` on a two-timer registry where the later
entry holds the minimum. -/
theorem next_due_minimum_witness :
    (nih_timer_next_due [] = none ↔ ([] : List NihTimer) = []) ∧
    (∃ pre m post,
      [mkTimeout 0 5 1 0, mkTimeout 0 3 2 0] = pre ++ m :: post ∧
      nih_timer_next_due [mkTimeout 0 5 1 0, mkTimeout 0 3 2 0] = some m ∧
      (∀ x ∈ [mkTimeout 0 5 1 0, mkTimeout 0 3 2 0], m.due ≤ x.due) ∧
      (∀ x ∈ pre, m.due < x.due)) :=
  ⟨(next_due_minimum []).1,
    (next_due_minimum [mkTimeout 0 5 1 0, mkTimeout 0 3 2 0]).2 (by simp)⟩

/-- Claim C7: a timeout `t ≥ 0` registered via `nih_timer_add_timeout` at
time `T` gets `due = T + t`; while every poll happens strictly before
`T + t` the (singleton) registry is unchanged and `nih_timer_next_due`
reports the timer with due `T + t`; the first poll at or after `T + t`
fires the Timeout timer and removes it, leaving it absent from the
registry. -/
theorem timeout_lifecycle (T t : Int) (cb d : Nat) (hcb : cb ≠ 0)
    (_ht : 0 ≤ t) (pre : List Int) (now : Int)
    (hpre : ∀ p ∈ pre, p < T + t) (hnow : T + t ≤ now) :
    nih_timer_add_timeout true cb d T t [] =
      TimerAddResult.ok (mkTimeout T t cb d) [mkTimeout T t cb d] ∧
    (mkTimeout T t cb d).due = T + t ∧
    pollSeq pre [mkTimeout T t cb d] = [mkTimeout T t cb d] ∧
    nih_timer_next_due [mkTimeout T t cb d] = some (mkTimeout T t cb d) ∧
    nih_timer_poll now [mkTimeout T t cb d] = ([], [mkTimeout T t cb d]) := by
  have hdue : (mkTimeout T t cb d).due = T + t := rfl
  refine ⟨?_, hdue, ?_, rfl, ?_⟩
  · simp [nih_timer_add_timeout, hcb]
  · exact pollSeq_singleton_keep (mkTimeout T t cb d) pre
      (fun p hp => by rw [hdue]; exact hpre p hp)
  · have h2 : ¬ now < T + t := by omega
    simp [nih_timer_poll, mkTimeout, h2]

/-- Witness for `timeout_lifecycle`: a 5-second timeout registered at time
0, polled at times 1 and 2 (kept) and then at time 7 (fired, removed). -/
theorem timeout_lifecycle_witness :
    nih_timer_add_timeout true 1 0 0 5 [] =
      TimerAddResult.ok (mkTimeout 0 5 1 0) [mkTimeout 0 5 1 0] ∧
    (mkTimeout 0 5 1 0).due = 0 + 5 ∧
    pollSeq [1, 2] [mkTimeout 0 5 1 0] = [mkTimeout 0 5 1 0] ∧
    nih_timer_next_due [mkTimeout 0 5 1 0] = some (mkTimeout 0 5 1 0) ∧
    nih_timer_poll 7 [mkTimeout 0 5 1 0] = ([], [mkTimeout 0 5 1 0]) :=
  timeout_lifecycle 0 5 1 0 (by decide) (by decide) [1, 2] 7 (by decide)
    (by decide)

/-- Claim C9: every add operation fails only on allocation exhaustion —
returning the null indicator with the registry unchanged — while contract
violations (null callback or handler, zero pid, non-positive period, null
schedule) abort via `nih_assert` instead of returning a value; on success
the new entry is appended to the registry. -/
theorem add_error_contract (allocOk : Bool) (cb d evs handler : Nat)
    (now tmo per wpid : Int) (sOpt : Option Nat)
    (ts : List NihTimer) (ws : List NihChildWatch) :
    (cb ≠ 0 →
      nih_timer_add_timeout false cb d now tmo ts =
        TimerAddResult.failed ts) ∧
    (cb = 0 →
      nih_timer_add_timeout allocOk cb d now tmo ts =
        TimerAddResult.aborted) ∧
    (cb ≠ 0 →
      nih_timer_add_timeout true cb d now tmo ts =
        TimerAddResult.ok (mkTimeout now tmo cb d)
          (ts ++ [mkTimeout now tmo cb d])) ∧
    (cb ≠ 0 → 0 < per →
      nih_timer_add_periodic false cb d now per ts =
        TimerAddResult.failed ts) ∧
    (cb = 0 ∨ per ≤ 0 →
      nih_timer_add_periodic allocOk cb d now per ts =
        TimerAddResult.aborted) ∧
    (cb ≠ 0 → 0 < per →
      nih_timer_add_periodic true cb d now per ts =
        TimerAddResult.ok (mkPeriodic now per cb d)
          (ts ++ [mkPeriodic now per cb d])) ∧
    (cb ≠ 0 → ∀ v,
      nih_timer_add_scheduled false cb d (some v) ts =
        TimerAddResult.failed ts) ∧
    (cb = 0 ∨ sOpt = none →
      nih_timer_add_scheduled allocOk cb d sOpt ts =
        TimerAddResult.aborted) ∧
    (cb ≠ 0 → ∀ v,
      nih_timer_add_scheduled true cb d (some v) ts =
        TimerAddResult.ok (mkScheduled cb d v)
          (ts ++ [mkScheduled cb d v])) ∧
    (wpid ≠ 0 → handler ≠ 0 →
      nih_child_add_watch false wpid evs handler d ws =
        WatchAddResult.failed ws) ∧
    (wpid = 0 ∨ handler = 0 →
      nih_child_add_watch allocOk wpid evs handler d ws =
        WatchAddResult.aborted) ∧
    (wpid ≠ 0 → handler ≠ 0 →
      nih_child_add_watch true wpid evs handler d ws =
        WatchAddResult.ok ⟨wpid, evs, handler, d⟩
          (ws ++ [⟨wpid, evs, handler, d⟩])) := by
  refine ⟨?_, ?_, ?_, ?_, ?_, ?_, ?_, ?_, ?_, ?_, ?_, ?_⟩
  · intro hcb
    simp [nih_timer_add_timeout, hcb]
  · intro hcb
    simp [nih_timer_add_timeout, hcb]
  · intro hcb
    simp [nih_timer_add_timeout, hcb]
  · intro hcb hper
    have h2 : ¬ per ≤ 0 := by omega
    simp [nih_timer_add_periodic, hcb, h2]
  · intro h
    rcases h with hcb | hper
    · simp [nih_timer_add_periodic, hcb]
    · by_cases hcb : cb = 0
      · simp [nih_timer_add_periodic, hcb]
      · simp [nih_timer_add_periodic, hcb, hper]
  · intro hcb hper
    have h2 : ¬ per ≤ 0 := by omega
    simp [nih_timer_add_periodic, hcb, h2]
  · intro hcb v
    simp [nih_timer_add_scheduled, hcb]
  · intro h
    rcases h with hcb | hsched
    · simp [nih_timer_add_scheduled, hcb]
    · by_cases hcb : cb = 0
      · simp [nih_timer_add_scheduled, hcb]
      · simp [nih_timer_add_scheduled, hcb, hsched]
  · intro hcb v
    simp [nih_timer_add_scheduled, hcb]
  · intro hpid hh
    simp [nih_child_add_watch, hpid, hh]
  · intro h
    rcases h with hpid | hh
    · simp [nih_child_add_watch, hpid]
    · by_cases hpid : wpid = 0
      · simp [nih_child_add_watch, hpid]
      · simp [nih_child_add_watch, hpid, hh]
  · intro hpid hh
    simp [nih_child_add_watch, hpid, hh]

/-- Witness for `add_error_contract` at concrete arguments. -/
theorem add_error_contract_witness :
    nih_timer_add_timeout false 1 0 0 5 [] = TimerAddResult.failed [] ∧
    nih_timer_add_timeout true 0 0 0 5 [] = TimerAddResult.aborted ∧
    nih_timer_add_timeout true 1 0 0 5 [] =
      TimerAddResult.ok (mkTimeout 0 5 1 0) [mkTimeout 0 5 1 0] ∧
    nih_timer_add_periodic true 1 0 0 0 [] = TimerAddResult.aborted ∧
    nih_timer_add_scheduled true 1 0 none [] = TimerAddResult.aborted ∧
    nih_child_add_watch false 7 1 1 0 [] = WatchAddResult.failed [] ∧
    nih_child_add_watch true 0 1 1 0 [] = WatchAddResult.aborted ∧
    nih_child_add_watch true 7 1 1 0 [] =
      WatchAddResult.ok ⟨7, 1, 1, 0⟩ [⟨7, 1, 1, 0⟩] := by
  have h := add_error_contract true 1 0 1 1 0 5 0 7 none [] []
  have h0 := add_error_contract true 0 0 1 1 0 5 0 7 none [] []
  have h1 := add_error_contract true 1 0 1 1 0 5 0 0 none [] []
  exact ⟨h.1 (by decide), h0.2.1 rfl, h.2.2.1 (by decide),
    h.2.2.2.2.1 (Or.inr (by decide)), h.2.2.2.2.2.2.2.1 (Or.inr rfl),
    h.2.2.2.2.2.2.2.2.2.1 (by decide) (by decide),
    h1.2.2.2.2.2.2.2.2.2.2.1 (Or.inl rfl),
    h.2.2.2.2.2.2.2.2.2.2.2 (by decide) (by decide)⟩

/-- With `free_watch` clear (non-terminal transitions) the dispatch loop
never removes a watch. -/
theorem dispatch_fst_false (pid : Int) (e : NihChildEvent) (st : Nat)
    (ws : List NihChildWatch) : (dispatch pid e st false ws).1 = ws := by
  rw [dispatch_fst, List.filter_eq_self]
  intro a _
  simp [keepPred]

/-- A watch whose event mask matches none of the decoded pending
transitions survives a whole `nih_child_poll`. -/
theorem poll_keeps_unmatched (w : NihChildWatch)
    (pending : List ChildTransition) (ws : List NihChildWatch)
    (hmem : w ∈ ws)
    (hall : ∀ tr ∈ pending,
      w.events &&& eventBit (decode tr.code tr.status).1 = 0) :
    w ∈ (nih_child_poll pending ws).1 := by
  induction pending generalizing ws with
  | nil => simpa [nih_child_poll] using hmem
  | cons tr pending ih =>
    by_cases hp : tr.pid = 0
    · simpa [nih_child_poll, hp] using hmem
    · simp only [nih_child_poll, if_neg hp]
      apply ih
      · rw [dispatch_fst, List.mem_filter]
        refine ⟨hmem, ?_⟩
        have hm := watchMatches_false_of_mask tr.pid
          (decode tr.code tr.status).1 w
          (hall tr (List.mem_cons_self tr pending))
        simp [keepPred, hm]
      · exact fun x hx => hall x (List.mem_cons_of_mem tr hx)

/-- Claim C3: the decode switch sets `free_watch` exactly on the terminal
transitions Exited/Killed/Dumped; on a terminal transition every invoked
pid-specific watch is removed from the registry right after its handler
ran; a non-terminal transition leaves the registry unchanged; a wildcard
watch is never auto-released; and across any whole `nih_child_poll` a
pid-specific watch present once in the registry receives at most one
terminal notification. -/
theorem child_watch_release (pid : Int) (code : CldCode) (status : Nat)
    (ws : List NihChildWatch) (w : NihChildWatch)
    (pending : List ChildTransition) :
    ((decode code status).2.2 = terminalEvent (decode code status).1) ∧
    (terminalEvent (decode code status).1 = true → w ∈ ws → w.pid ≠ -1 →
      watchMatches pid (decode code status).1 w = true →
      (PollAction.invoke w pid (decode code status).1
          (decode code status).2.1 ∈
        (dispatch pid (decode code status).1 (decode code status).2.1
          (decode code status).2.2 ws).2 ∧
      w ∉ (dispatch pid (decode code status).1 (decode code status).2.1
          (decode code status).2.2 ws).1)) ∧
    (terminalEvent (decode code status).1 = false →
      (dispatch pid (decode code status).1 (decode code status).2.1
        (decode code status).2.2 ws).1 = ws) ∧
    (w.pid = -1 → w ∈ ws →
      w ∈ (dispatch pid (decode code status).1 (decode code status).2.1
        (decode code status).2.2 ws).1) ∧
    (w.pid ≠ -1 → countW w ws ≤ 1 →
      countTerminalInvokes w (nih_child_poll pending ws).2 ≤ 1) := by
  have hfw := decode_fw code status
  refine ⟨hfw, ?_, ?_, ?_, ?_⟩
  · intro hterm hmem hwpid hmatch
    rw [hfw, hterm]
    constructor
    · rw [dispatch_snd]
      exact List.mem_map_of_mem _ (List.mem_filter.mpr ⟨hmem, hmatch⟩)
    · rw [dispatch_fst]
      intro hcontra
      have := (List.mem_filter.mp hcontra).2
      rw [show keepPred pid (decode code status).1 true w = false from by
        simp [keepPred, hmatch, hwpid]] at this
      exact Bool.noConfusion this
  · intro hterm
    rw [hfw, hterm]
    exact dispatch_fst_false pid (decode code status).1
      (decode code status).2.1 ws
  · intro hwild hmem
    rw [dispatch_fst, List.mem_filter]
    exact ⟨hmem, by simp [keepPred, hwild]⟩
  · intro hwpid hcount
    have := countTI_poll w hwpid pending ws
    omega

/-- Witness for `child_watch_release`: a pid-specific watch subscribed to
Exited, dispatched an Exited transition for its pid. -/
theorem child_watch_release_witness :
    PollAction.invoke ⟨7, 1, 3, 0⟩ 7 NihChildEvent.exited 4 ∈
      (dispatch 7 NihChildEvent.exited 4 true [⟨7, 1, 3, 0⟩]).2 ∧
    (⟨7, 1, 3, 0⟩ : NihChildWatch) ∉
      (dispatch 7 NihChildEvent.exited 4 true [⟨7, 1, 3, 0⟩]).1 ∧
    (dispatch 7 NihChildEvent.stopped 4 false [⟨7, 1, 3, 0⟩]).1 =
      [⟨7, 1, 3, 0⟩] ∧
    countTerminalInvokes ⟨7, 1, 3, 0⟩
      (nih_child_poll [⟨7, CldCode.exited, 4⟩] [⟨7, 1, 3, 0⟩]).2 ≤ 1 := by
  have h := child_watch_release 7 CldCode.exited 4 [⟨7, 1, 3, 0⟩]
    ⟨7, 1, 3, 0⟩ [⟨7, CldCode.exited, 4⟩]
  have h2 := child_watch_release 7 CldCode.stopped 4 [⟨7, 1, 3, 0⟩]
    ⟨7, 1, 3, 0⟩ []
  have hmain := h.2.1 rfl (by simp) (by decide) (by decide)
  exact ⟨hmain.1, hmain.2, h2.2.2.1 rfl,
    h.2.2.2.2 (by decide) (by decide)⟩

/-- Claim C4 counterexample: raw status 133 = 0x85 has low byte 0x85,
which is not SIGTRAP, so by the claim's wording it would be a plain
Trapped event with status 133; but the code masks only the low seven bits
(`0x7f`), sees SIGTRAP with bit 7 set, and classifies the transition as
Ptrace with status `133 >> 8 = 0`. -/
theorem trapped_decode_cex :
    decode CldCode.trapped 133 = (NihChildEvent.ptrace, 0, false) ∧
    decodeTrappedClaim 133 = (NihChildEvent.trapped, 133) ∧
    (decode CldCode.trapped 133).1 ≠ (decodeTrappedClaim 133).1 := by
  decide

/-- Claim C4 as amended: for a CLD_TRAPPED transition, when the low seven
bits of the raw status equal SIGTRAP and some higher bit is set
(`si_status & ~0x7f != 0`), the dispatched event is Ptrace with the raw
status shifted right by 8 as status; otherwise it is Trapped with the raw
status unchanged; either way the transition is non-terminal and the watch
registry survives unchanged. -/
theorem trapped_decode (p : Int) (s : Nat) (ws : List NihChildWatch)
    (hp : p ≠ 0) :
    (nih_child_poll [⟨p, CldCode.trapped, s⟩] ws).2 =
      PollAction.peek ⟨p, CldCode.trapped, s⟩ ::
        (ws.filter (watchMatches p
            (if s &&& 0x7f = SIGTRAP ∧ s >>> 7 ≠ 0 then NihChildEvent.ptrace
             else NihChildEvent.trapped))).map
          (fun w => PollAction.invoke w p
            (if s &&& 0x7f = SIGTRAP ∧ s >>> 7 ≠ 0 then NihChildEvent.ptrace
             else NihChildEvent.trapped)
            (if s &&& 0x7f = SIGTRAP ∧ s >>> 7 ≠ 0 then s >>> 8 else s)) ++
        [PollAction.reap p] ∧
    (nih_child_poll [⟨p, CldCode.trapped, s⟩] ws).1 = ws := by
  by_cases hcond : s &&& 0x7f = SIGTRAP ∧ s >>> 7 ≠ 0
  · constructor
    · simp only [nih_child_poll, if_neg hp, decode, if_pos hcond,
        dispatch_snd]
    · simp only [nih_child_poll, if_neg hp, decode, if_pos hcond]
      simp [dispatch_fst_false]
  · constructor
    · simp only [nih_child_poll, if_neg hp, decode, if_neg hcond,
        dispatch_snd]
    · simp only [nih_child_poll, if_neg hp, decode, if_neg hcond]
      simp [dispatch_fst_false]

/-- Witness for `trapped_decode` at raw status 133 with one wildcard watch
subscribed to Ptrace events. -/
theorem trapped_decode_witness :
    (nih_child_poll [⟨5, CldCode.trapped, 133⟩] [⟨-1, 64, 1, 0⟩]).2 =
      PollAction.peek ⟨5, CldCode.trapped, 133⟩ ::
        PollAction.invoke ⟨-1, 64, 1, 0⟩ 5 NihChildEvent.ptrace 0 ::
        [PollAction.reap 5] ∧
    (nih_child_poll [⟨5, CldCode.trapped, 133⟩] [⟨-1, 64, 1, 0⟩]).1 =
      [⟨-1, 64, 1, 0⟩] := by
  have h := trapped_decode 5 133 [⟨-1, 64, 1, 0⟩] (by decide)
  exact ⟨h.1.trans (by decide), h.2⟩

/-- Claim C5: the trace of a whole `nih_child_poll` decomposes into one
block per pending transition, in order; each block is the non-consuming
peek, then nothing but handler invocations, then exactly one consuming
reap for that transition's pid.  Hence the consuming reap happens exactly
once per transition, after all matching handlers for it were invoked and
before the next pending transition is examined, and the total number of
reaps equals the number of transitions. -/
theorem reap_once_per_transition (pending : List ChildTransition)
    (ws : List NihChildWatch) (hpid : ∀ tr ∈ pending, tr.pid ≠ 0) :
    ∃ blocks : List (List PollAction),
      (nih_child_poll pending ws).2 = blocks.flatten ∧
      List.Forall₂ (fun tr blk => ∃ invs : List PollAction,
        (∀ a ∈ invs, isInvoke a = true) ∧
        blk = PollAction.peek tr :: invs ++ [PollAction.reap tr.pid])
        pending blocks ∧
      ((nih_child_poll pending ws).2.filter isReap).length =
        pending.length := by
  induction pending generalizing ws with
  | nil => exact ⟨[], rfl, List.Forall₂.nil, rfl⟩
  | cons tr pending ih =>
    have hp : tr.pid ≠ 0 := hpid tr (List.mem_cons_self tr pending)
    obtain ⟨blocks, hflat, hf2, hcount⟩ :=
      ih (dispatch tr.pid (decode tr.code tr.status).1
          (decode tr.code tr.status).2.1 (decode tr.code tr.status).2.2
          ws).1
        (fun x hx => hpid x (List.mem_cons_of_mem tr hx))
    have hinv := dispatch_acts_invoke tr.pid (decode tr.code tr.status).1
      (decode tr.code tr.status).2.1 (decode tr.code tr.status).2.2 ws
    refine ⟨(PollAction.peek tr ::
        (dispatch tr.pid (decode tr.code tr.status).1
          (decode tr.code tr.status).2.1 (decode tr.code tr.status).2.2
          ws).2 ++ [PollAction.reap tr.pid]) :: blocks, ?_, ?_, ?_⟩
    · simp only [nih_child_poll, if_neg hp, List.flatten_cons]
      rw [← hflat]
      simp
    · exact List.Forall₂.cons
        ⟨(dispatch tr.pid (decode tr.code tr.status).1
            (decode tr.code tr.status).2.1 (decode tr.code tr.status).2.2
            ws).2, hinv, rfl⟩ hf2
    · have hA : ((dispatch tr.pid (decode tr.code tr.status).1
          (decode tr.code tr.status).2.1 (decode tr.code tr.status).2.2
          ws).2.filter isReap) = [] := by
        rw [List.filter_eq_nil_iff]
        intro a ha
        have := hinv a ha
        cases a with
        | invoke w2 p2 e2 s2 => simp [isReap]
        | peek t2 => exact Bool.noConfusion this
        | reap p2 => exact Bool.noConfusion this
      simp only [nih_child_poll, if_neg hp]
      simp [List.filter_append, hA, isReap, hcount]

/-- Witness for `reap_once_per_transition`: two pending transitions for
different pids over a one-watch registry. -/
theorem reap_once_per_transition_witness :
    ∃ blocks : List (List PollAction),
      (nih_child_poll [⟨5, CldCode.exited, 0⟩, ⟨6, CldCode.stopped, 19⟩]
        [⟨-1, 9, 1, 0⟩]).2 = blocks.flatten ∧
      List.Forall₂ (fun tr blk => ∃ invs : List PollAction,
        (∀ a ∈ invs, isInvoke a = true) ∧
        blk = PollAction.peek tr :: invs ++ [PollAction.reap tr.pid])
        [⟨5, CldCode.exited, 0⟩, ⟨6, CldCode.stopped, 19⟩] blocks ∧
      ((nih_child_poll [⟨5, CldCode.exited, 0⟩, ⟨6, CldCode.stopped, 19⟩]
        [⟨-1, 9, 1, 0⟩]).2.filter isReap).length = 2 :=
  reap_once_per_transition
    [⟨5, CldCode.exited, 0⟩, ⟨6, CldCode.stopped, 19⟩]
    [⟨-1, 9, 1, 0⟩] (by decide)

/-- Claim C8: during dispatch of a decoded transition, a watch's handler
is invoked iff its pid equals the reported pid or is the wildcard -1 and
its event mask includes the reported event kind; the invocations are
exactly one per matching watch, in registry order, every one carrying the
identical (pid, event, status) tuple. -/
theorem dispatch_invocations (pid : Int) (e : NihChildEvent) (st : Nat)
    (fw : Bool) (ws : List NihChildWatch) :
    (dispatch pid e st fw ws).2 =
      (ws.filter (watchMatches pid e)).map
        (fun w => PollAction.invoke w pid e st) ∧
    (∀ a, a ∈ (dispatch pid e st fw ws).2 ↔
      ∃ w ∈ ws, ((w.pid = pid ∨ w.pid = -1) ∧ w.events &&& eventBit e ≠ 0) ∧
        a = PollAction.invoke w pid e st) := by
  refine ⟨dispatch_snd pid e st fw ws, ?_⟩
  intro a
  rw [dispatch_snd]
  simp only [List.mem_map, List.mem_filter, watchMatches, decide_eq_true_eq]
  constructor
  · rintro ⟨w, ⟨hw, hm⟩, rfl⟩
    exact ⟨w, hw, hm, rfl⟩
  · rintro ⟨w, hw, hm, rfl⟩
    exact ⟨w, ⟨hw, hm⟩, rfl⟩

/-- Witness for `dispatch_invocations`: two watches for the same pid with
overlapping masks both receive the identical tuple; a third watch with a
disjoint mask is skipped. -/
theorem dispatch_invocations_witness :
    (dispatch 7 NihChildEvent.exited 4 true
        [⟨7, 1, 1, 0⟩, ⟨7, 3, 2, 0⟩, ⟨7, 2, 3, 0⟩]).2 =
      ([⟨7, 1, 1, 0⟩, ⟨7, 3, 2, 0⟩, ⟨7, 2, 3, 0⟩].filter
          (watchMatches 7 NihChildEvent.exited)).map
        (fun w => PollAction.invoke w 7 NihChildEvent.exited 4) :=
  (dispatch_invocations 7 NihChildEvent.exited 4 true
    [⟨7, 1, 1, 0⟩, ⟨7, 3, 2, 0⟩, ⟨7, 2, 3, 0⟩]).1

/-- Claim C10: a pid-specific watch is auto-freed only when its handler
actually ran: if its event mask does not include the decoded event kind,
it is neither invoked nor freed, even for a terminal transition of its own
pid — it survives that dispatch, and survives an entire poll none of whose
decoded transitions match its mask, remaining registered indefinitely. -/
theorem unmatched_watch_survives (pid : Int) (code : CldCode) (status : Nat)
    (ws : List NihChildWatch) (w : NihChildWatch)
    (pending : List ChildTransition) (hmem : w ∈ ws)
    (hmask : w.events &&& eventBit (decode code status).1 = 0) :
    (PollAction.invoke w pid (decode code status).1
        (decode code status).2.1 ∉
      (dispatch pid (decode code status).1 (decode code status).2.1
        (decode code status).2.2 ws).2 ∨ w ∈
      (dispatch pid (decode code status).1 (decode code status).2.1
        (decode code status).2.2 ws).1) ∧
    w ∈ (dispatch pid (decode code status).1 (decode code status).2.1
        (decode code status).2.2 ws).1 ∧
    ((∀ tr ∈ pending,
        w.events &&& eventBit (decode tr.code tr.status).1 = 0) →
      w ∈ (nih_child_poll pending ws).1) := by
  have hm := watchMatches_false_of_mask pid (decode code status).1 w hmask
  have hkeep : w ∈ (dispatch pid (decode code status).1
      (decode code status).2.1 (decode code status).2.2 ws).1 := by
    rw [dispatch_fst, List.mem_filter]
    exact ⟨hmem, by simp [keepPred, hm]⟩
  exact ⟨Or.inr hkeep, hkeep,
    fun hall => poll_keeps_unmatched w pending ws hmem hall⟩

/-- Witness for `unmatched_watch_survives`: a watch for pid 7 subscribed
only to Stopped survives the Exited transition of pid 7 and the whole
poll delivering it. -/
theorem unmatched_watch_survives_witness :
    (PollAction.invoke ⟨7, 8, 1, 0⟩ 7 (decode CldCode.exited 0).1
        (decode CldCode.exited 0).2.1 ∉
      (dispatch 7 (decode CldCode.exited 0).1 (decode CldCode.exited 0).2.1
        (decode CldCode.exited 0).2.2 [⟨7, 8, 1, 0⟩]).2 ∨
      (⟨7, 8, 1, 0⟩ : NihChildWatch) ∈
      (dispatch 7 (decode CldCode.exited 0).1 (decode CldCode.exited 0).2.1
        (decode CldCode.exited 0).2.2 [⟨7, 8, 1, 0⟩]).1) ∧
    (⟨7, 8, 1, 0⟩ : NihChildWatch) ∈
      (dispatch 7 (decode CldCode.exited 0).1 (decode CldCode.exited 0).2.1
        (decode CldCode.exited 0).2.2 [⟨7, 8, 1, 0⟩]).1 ∧
    ((∀ tr ∈ [(⟨7, CldCode.exited, 0⟩ : ChildTransition)],
        (8 : Nat) &&& eventBit (decode tr.code tr.status).1 = 0) →
      (⟨7, 8, 1, 0⟩ : NihChildWatch) ∈
        (nih_child_poll [⟨7, CldCode.exited, 0⟩] [⟨7, 8, 1, 0⟩]).1) :=
  unmatched_watch_survives 7 CldCode.exited 0 [⟨7, 8, 1, 0⟩] ⟨7, 8, 1, 0⟩
    [⟨7, CldCode.exited, 0⟩] (by simp) (by decide)

end LibNih
